import Mathlib

/-!
Verification development for the `go-wayback` command-line tool.

The repository contains several historical versions of the tool:
`main.go` (three-mode v1.0.0), an intermediate four-mode version
(`src/unnamed/part_000`), a concurrent version, and the current
v2.0.1 pipeline (second half of `src/unnamed/part_001`) with
`processURL`, `processTextFormat`, `processJSONFormat`,
`processXMLFormat`, `processCSVFormat`, `matchesFilter`,
`extractSubdomains`, `processDateRange` and a rate limiter.

This file shallowly embeds the pure (line processing, filtering,
rendering, URL construction) parts of those functions.  Go strings
are modelled as Lean `String` (byte-level functions such as
`url.QueryEscape` use `List Nat` byte sequences instead, since Go
strings are byte slices).  Go's `time.Time` zero value is modelled
by `none : Option GoTime`.  The Go regexp engine is external to the
repository and is abstracted as a `compile` function returning
`none` exactly when Go's `regexp.Compile` would fail.
-/

namespace GoWayback

/-- Whitespace test matching Go `unicode.IsSpace` on the Latin-1 range
(the characters relevant to this tool's inputs). -/
def goIsSpace (c : Char) : Bool :=
  c = ' ' ∨ c = '\t' ∨ c = '\n' ∨ c = '\x0b' ∨ c = '\x0c' ∨ c = '\r' ∨
    c.toNat = 0x85 ∨ c.toNat = 0xA0

/-- Model of `strings.TrimSpace(line) == ""`: the line is blank iff every
character is whitespace. -/
def isBlank (s : String) : Bool :=
  s.toList.all goIsSpace

/-- Accumulator worker for `goFields`; collects maximal runs of
non-whitespace characters. -/
def goFieldsAux : List Char → List Char → List (List Char)
  | [], acc => if acc = [] then [] else [acc.reverse]
  | c :: cs, acc =>
    if goIsSpace c then
      if acc = [] then goFieldsAux cs [] else acc.reverse :: goFieldsAux cs []
    else goFieldsAux cs (c :: acc)

/-- Model of Go `strings.Fields`: split a string around runs of
whitespace, returning the non-empty fields. -/
def goFields (s : String) : List String :=
  (goFieldsAux s.toList []).map fun w => String.mk w

/-- Model of Go `time.Time` restricted to the components produced by
parsing layout `"20060102150405"` (always UTC). -/
structure GoTime where
  year : Nat
  month : Nat
  day : Nat
  hour : Nat
  minute : Nat
  second : Nat
deriving DecidableEq, Repr

/-- Gregorian leap-year test, as in Go's `time` package. -/
def isLeap (y : Nat) : Bool :=
  (y % 4 = 0 ∧ y % 100 ≠ 0) ∨ y % 400 = 0

/-- Number of days in a month, as used by Go `time.Parse` range checks. -/
def daysIn (y m : Nat) : Nat :=
  if m = 2 then (if isLeap y then 29 else 28)
  else if m = 4 ∨ m = 6 ∨ m = 9 ∨ m = 11 then 30
  else 31

/-- Numeric value of a decimal digit character. -/
def dval (c : Char) : Nat := c.toNat - 48

/-- Model of Go `time.Parse("20060102150405", s)`: `none` models the
error case (and the zero `time.Time` that accompanies it), `some`
models a successfully parsed timestamp.  The layout demands exactly
14 digits and Go's parser range-checks month, day, hour, minute and
second. -/
def goTimeParse14 (s : String) : Option GoTime :=
  match s.toList with
  | [y1, y2, y3, y4, m1, m2, d1, d2, h1, h2, i1, i2, s1, s2] =>
    if ([y1, y2, y3, y4, m1, m2, d1, d2, h1, h2, i1, i2, s1, s2].all Char.isDigit) then
      let y := ((dval y1 * 10 + dval y2) * 10 + dval y3) * 10 + dval y4
      let mo := dval m1 * 10 + dval m2
      let dy := dval d1 * 10 + dval d2
      let hr := dval h1 * 10 + dval h2
      let mi := dval i1 * 10 + dval i2
      let se := dval s1 * 10 + dval s2
      if 1 ≤ mo ∧ mo ≤ 12 ∧ 1 ≤ dy ∧ dy ≤ daysIn y mo ∧ hr ≤ 23 ∧ mi ≤ 59 ∧ se ≤ 59 then
        some ⟨y, mo, dy, hr, mi, se⟩
      else none
    else none
  | _ => none

/-- Left-pad the decimal rendering of `n` with zeros to width `w`. -/
def padLeft0 (w n : Nat) : String :=
  let s := toString n
  String.mk (List.replicate (w - s.length) '0') ++ s

/-- Model of `time.Time.Format(time.RFC3339)` for the times this tool
produces: the zero value renders as `0001-01-01T00:00:00Z`, a parsed
timestamp as a UTC RFC-3339 string. -/
def rfc3339 : Option GoTime → String
  | none => "0001-01-01T00:00:00Z"
  | some t =>
    padLeft0 4 t.year ++ "-" ++ padLeft0 2 t.month ++ "-" ++ padLeft0 2 t.day ++ "T" ++
      padLeft0 2 t.hour ++ ":" ++ padLeft0 2 t.minute ++ ":" ++ padLeft0 2 t.second ++ "Z"

/-- One archive record, as in the v2.0.1 `WaybackResult` struct.  The
`date` field models the Go `time.Time` field, `none` standing for the
zero value left behind by a failed `time.Parse`. -/
structure WaybackResult where
  url : String
  length : String
  timestamp : String
  date : Option GoTime
deriving DecidableEq, Repr

/-- The v2.0.1 `Config` struct (run parameters). -/
structure Config where
  waybackOnly : Bool
  browsable : Bool
  saveCSV : Bool
  subdomain : Bool
  uniqueURLs : Bool
  verbose : Bool
  outputFile : String
  concurrent : Int
  timeout : Int
  startDate : String
  endDate : String
  outputFormat : String
  inputFile : String
  regexFilter : String
  rateLimit : Int
  maxResults : Int
deriving DecidableEq, Repr

/-- The v2.0.1 flag defaults. -/
def defaultConfig : Config where
  waybackOnly := false
  browsable := false
  saveCSV := false
  subdomain := false
  uniqueURLs := false
  verbose := false
  outputFile := ""
  concurrent := 10
  timeout := 30
  startDate := ""
  endDate := ""
  outputFormat := "text"
  inputFile := ""
  regexFilter := ""
  rateLimit := 10
  maxResults := 0

/-- Model of `matchesFilter` from v2.0.1.  Go's `regexp.Compile` is
external to the repository, so it is abstracted as `compile`, which
returns `some` matcher on success and `none` exactly when the pattern
is invalid.  An empty pattern, or a pattern that fails to compile,
filters nothing. -/
def matchesFilter (compile : String → Option (String → Bool))
    (url regexPattern : String) : Bool :=
  if regexPattern = "" then true
  else
    match compile regexPattern with
    | none => true
    | some m => m url

/-- The browsable archive link built by the text renderer:
`https://web.archive.org/web/<timestamp>/<url>`. -/
def browsableURL (timestamp url : String) : String :=
  "https://web.archive.org/web/" ++ timestamp ++ "/" ++ url

/-- Loop body of v2.0.1 `processTextFormat`: skip blank lines and lines
with fewer than 3 fields, apply the regex filter to the first field,
apply the uniqueness filter when enabled, print the URL (or the
browsable link), and stop once a positive `MaxResults` is reached.
`seen` is the `uniqueURLs` set, `count` the emitted-line counter. -/
def processTextAux (compile : String → Option (String → Bool)) (cfg : Config) :
    List String → List String → Int → List String
  | [], _, _ => []
  | line :: rest, seen, count =>
    if isBlank line then processTextAux compile cfg rest seen count
    else
      match goFields line with
      | f0 :: _ :: f2 :: _ =>
        if matchesFilter compile f0 cfg.regexFilter = false then
          processTextAux compile cfg rest seen count
        else if cfg.uniqueURLs ∧ f0 ∈ seen then
          processTextAux compile cfg rest seen count
        else
          let seen2 := if cfg.uniqueURLs then f0 :: seen else seen
          let out := if cfg.browsable then browsableURL f2 f0 else f0
          out ::
            (if 0 < cfg.maxResults ∧ cfg.maxResults ≤ count + 1 then []
             else processTextAux compile cfg rest seen2 (count + 1))
      | _ => processTextAux compile cfg rest seen count

/-- Model of v2.0.1 `processTextFormat`: the lines written to the sink,
in order. -/
def processTextFormat (compile : String → Option (String → Bool)) (cfg : Config)
    (lines : List String) : List String :=
  processTextAux compile cfg lines [] 0

/-- Loop body of v2.0.1 `processJSONFormat`: identical gating to the text
renderer, but collecting `WaybackResult` records whose `date` field is
the (error-discarding) parse of the third field. -/
def processJSONAux (compile : String → Option (String → Bool)) (cfg : Config) :
    List String → List String → Int → List WaybackResult
  | [], _, _ => []
  | line :: rest, seen, count =>
    if isBlank line then processJSONAux compile cfg rest seen count
    else
      match goFields line with
      | f0 :: f1 :: f2 :: _ =>
        if matchesFilter compile f0 cfg.regexFilter = false then
          processJSONAux compile cfg rest seen count
        else if cfg.uniqueURLs ∧ f0 ∈ seen then
          processJSONAux compile cfg rest seen count
        else
          let seen2 := if cfg.uniqueURLs then f0 :: seen else seen
          ({ url := f0, length := f1, timestamp := f2, date := goTimeParse14 f2 } : WaybackResult) ::
            (if 0 < cfg.maxResults ∧ cfg.maxResults ≤ count + 1 then []
             else processJSONAux compile cfg rest seen2 (count + 1))
      | _ => processJSONAux compile cfg rest seen count

/-- The JSON object written by `processJSONFormat`: a `results` array and
a `count` equal to its length. -/
structure JSONOutput where
  results : List WaybackResult
  count : Nat
deriving DecidableEq, Repr

/-- Model of v2.0.1 `processJSONFormat`. -/
def processJSONFormat (compile : String → Option (String → Bool)) (cfg : Config)
    (lines : List String) : JSONOutput :=
  let rs := processJSONAux compile cfg lines [] 0
  { results := rs, count := rs.length }

/-- Loop body of v2.0.1 `processXMLFormat` (same record collection as the
JSON renderer). -/
def processXMLAux (compile : String → Option (String → Bool)) (cfg : Config) :
    List String → List String → Int → List WaybackResult
  | [], _, _ => []
  | line :: rest, seen, count =>
    if isBlank line then processXMLAux compile cfg rest seen count
    else
      match goFields line with
      | f0 :: f1 :: f2 :: _ =>
        if matchesFilter compile f0 cfg.regexFilter = false then
          processXMLAux compile cfg rest seen count
        else if cfg.uniqueURLs ∧ f0 ∈ seen then
          processXMLAux compile cfg rest seen count
        else
          let seen2 := if cfg.uniqueURLs then f0 :: seen else seen
          ({ url := f0, length := f1, timestamp := f2, date := goTimeParse14 f2 } : WaybackResult) ::
            (if 0 < cfg.maxResults ∧ cfg.maxResults ≤ count + 1 then []
             else processXMLAux compile cfg rest seen2 (count + 1))
      | _ => processXMLAux compile cfg rest seen count

/-- The `XMLResponse` struct written by `processXMLFormat`. -/
structure XMLResponse where
  results : List WaybackResult
  count : Nat
deriving DecidableEq, Repr

/-- Model of v2.0.1 `processXMLFormat`. -/
def processXMLFormat (compile : String → Option (String → Bool)) (cfg : Config)
    (lines : List String) : XMLResponse :=
  let rs := processXMLAux compile cfg lines [] 0
  { results := rs, count := rs.length }

/-- Model of Go `encoding/csv`'s `fieldNeedsQuotes` with the default
comma separator: a field is quoted iff it is `\.`, contains a comma, a
double quote, CR or LF, or begins with a space character. -/
def csvNeedsQuote (f : List Char) : Bool :=
  if f = [] then false
  else if f = ['\\', '.'] then true
  else f.contains ',' || f.contains '"' || f.contains '\r' || f.contains '\n' ||
    goIsSpace (f.headD 'x')

/-- Double every double-quote character, as `encoding/csv` does inside a
quoted field (with the default `UseCRLF = false`, all other characters
are written unchanged). -/
def escapeQuotes : List Char → List Char
  | [] => []
  | c :: cs => if c = '"' then '"' :: '"' :: escapeQuotes cs else c :: escapeQuotes cs

/-- One CSV field as written by Go `encoding/csv`. -/
def encodeField (f : List Char) : List Char :=
  if csvNeedsQuote f then '"' :: (escapeQuotes f ++ ['"']) else f

/-- One CSV record (line) as written by Go `encoding/csv`: the encoded
fields joined with commas. -/
def encodeRow : List (List Char) → List Char
  | [] => []
  | [f] => encodeField f
  | f :: fs => encodeField f ++ ',' :: encodeRow fs

/-- Standard CSV record parser (state machine: `inQuotes` tells whether
the parser is inside a quoted section; `""` inside quotes is a literal
double quote).  `acc` holds the current field, reversed. -/
def parseCSVRec : List Char → List Char → Bool → List (List Char)
  | [], acc, _ => [acc.reverse]
  | '"' :: '"' :: rest2, acc, true => parseCSVRec rest2 ('"' :: acc) true
  | '"' :: rest, acc, true => parseCSVRec rest acc false
  | c :: rest, acc, true => parseCSVRec rest (c :: acc) true
  | ',' :: rest, acc, false => acc.reverse :: parseCSVRec rest [] false
  | '"' :: rest, acc, false => parseCSVRec rest acc true
  | c :: rest, acc, false => parseCSVRec rest (c :: acc) false

/-- Parse one CSV record into its fields, per standard CSV quoting
rules. -/
def parseCSVLine (l : List Char) : List (List Char) :=
  parseCSVRec l [] false

/-- The data row `processCSVFormat` writes for one record:
`URL,LENGTH,TIMESTAMP,DATE` with the date rendered as RFC 3339. -/
def renderCSVRow (r : WaybackResult) : List Char :=
  encodeRow [r.url.toList, r.length.toList, r.timestamp.toList, (rfc3339 r.date).toList]

/-- The header row written by v2.0.1 `processCSVFormat`. -/
def csvHeader : List Char :=
  encodeRow ["URL".toList, "LENGTH".toList, "TIMESTAMP".toList, "DATE".toList]

/-- Loop body of v2.0.1 `processCSVFormat`: the same gating as the other
renderers, emitting one encoded CSV line per record. -/
def processCSVAux (compile : String → Option (String → Bool)) (cfg : Config) :
    List String → List String → Int → List (List Char)
  | [], _, _ => []
  | line :: rest, seen, count =>
    if isBlank line then processCSVAux compile cfg rest seen count
    else
      match goFields line with
      | f0 :: f1 :: f2 :: _ =>
        if matchesFilter compile f0 cfg.regexFilter = false then
          processCSVAux compile cfg rest seen count
        else if cfg.uniqueURLs ∧ f0 ∈ seen then
          processCSVAux compile cfg rest seen count
        else
          let seen2 := if cfg.uniqueURLs then f0 :: seen else seen
          renderCSVRow { url := f0, length := f1, timestamp := f2, date := goTimeParse14 f2 } ::
            (if 0 < cfg.maxResults ∧ cfg.maxResults ≤ count + 1 then []
             else processCSVAux compile cfg rest seen2 (count + 1))
      | _ => processCSVAux compile cfg rest seen count

/-- Model of v2.0.1 `processCSVFormat`: the CSV lines written to the
sink, header first. -/
def processCSVFormat (compile : String → Option (String → Bool)) (cfg : Config)
    (lines : List String) : List (List Char) :=
  csvHeader :: processCSVAux compile cfg lines [] 0

/-- Rendering a record set to CSV: the header line followed by one data
row per record. -/
def renderCSV (rs : List WaybackResult) : List (List Char) :=
  csvHeader :: rs.map renderCSVRow

/-- The intermediate CSV line built by `main.go` (and part_000):
`fmt.Sprintf("%s,%s,%s", originalURL, length, timestamp)`. -/
def mainGoCSVLine (url length timestamp : String) : String :=
  url ++ "," ++ length ++ "," ++ timestamp

/-- Model of `strings.Split(line, ",")` as used by `main.go`'s CSV
writer on the comma-joined line. -/
def splitComma : List Char → List (List Char)
  | [] => [[]]
  | c :: cs =>
    if c = ',' then [] :: splitComma cs
    else
      match splitComma cs with
      | w :: ws => (c :: w) :: ws
      | [] => [[c]]

/-- The data row `main.go` (lines 119-144) writes for one record: the
comma-joined line is re-split on every comma and the resulting fields
are handed to `csv.Writer.Write`. -/
def mainGoCSVRow (url length timestamp : String) : List Char :=
  encodeRow (splitComma (mainGoCSVLine url length timestamp).toList)

/-- Model of v2.0.1 `extractSubdomains`: `strings.TrimPrefix` with
`http://`, then `strings.TrimPrefix` with `https://` on the result,
truncate at the first `/`, truncate at the first `:`, lower-case
(ASCII case mapping, which covers this tool's inputs). -/
def extractSubdomains (url : String) : String :=
  let u1 := if "http://".toList.isPrefixOf url.toList then url.toList.drop 7 else url.toList
  let u2 := if "https://".toList.isPrefixOf u1 then u1.drop 8 else u1
  let u3 := u2.takeWhile fun c => c ≠ '/'
  let u4 := u3.takeWhile fun c => c ≠ ':'
  String.mk (u4.map Char.toLower)

/-- Host extraction exactly as the spec words it: strip ONE leading
literal `http://` or `https://` scheme, truncate at the first `/` and
the first `:`, lower-case.  Kept separate from `extractSubdomains`
(which trims `http://` and then also `https://`) so the two can be
compared. -/
def specExtractHost (url : String) : String :=
  let u1 := if "http://".toList.isPrefixOf url.toList then url.toList.drop 7
            else if "https://".toList.isPrefixOf url.toList then url.toList.drop 8
            else url.toList
  let u2 := u1.takeWhile fun c => c ≠ '/'
  let u3 := u2.takeWhile fun c => c ≠ ':'
  String.mk (u3.map Char.toLower)

/-- The contribution of one response line to the subdomain set in v2.0.1
`processURL`: blank lines and lines with no fields are skipped, the
host is extracted from the first field, and empty hosts are dropped. -/
def subCandidate (line : String) : Option String :=
  if isBlank line then none
  else
    match goFields line with
    | [] => none
    | f0 :: _ =>
      let s := extractSubdomains f0
      if s = "" then none else some s

/-- Go `sort.Strings` ordering, modelled as lexicographic order on the
character lists of the strings (byte order for the ASCII data this
tool handles). -/
def strDataLe (a b : String) : Prop :=
  a.data ≤ b.data

/-- Strict version of `strDataLe`. -/
def strDataLt (a b : String) : Prop :=
  a.data < b.data

instance : DecidableRel strDataLe :=
  fun a b => inferInstanceAs (Decidable (a.data ≤ b.data))

instance : DecidableRel strDataLt :=
  fun a b => inferInstanceAs (Decidable (a.data < b.data))

instance : IsTotal String strDataLe :=
  ⟨fun a b => IsTotal.total (r := (· ≤ ·)) a.data b.data⟩

instance : IsTrans String strDataLe :=
  ⟨fun _ _ _ hab hbc => le_trans hab hbc⟩

instance : IsAntisymm String strDataLe :=
  ⟨fun _ _ hab hba => String.ext (le_antisymm hab hba)⟩

/-- First-occurrence deduplication with an explicit `seen` accumulator
(the membership semantics of the Go `map[string]bool` subdomain set). -/
def dedupAux : List String → List String → List String
  | [], _ => []
  | x :: xs, seen =>
    if x ∈ seen then dedupAux xs seen else x :: dedupAux xs (x :: seen)

/-- The distinct elements of a list, first occurrences kept. -/
def dedupFirst (l : List String) : List String :=
  dedupAux l []

/-- Model of the subdomain branch of v2.0.1 `processURL`: the set of
extracted hosts (a Go `map[string]bool`, modelled as the deduplicated
candidate list), emitted in sorted order by `sort.Strings`. -/
def processURLSubdomains (lines : List String) : List String :=
  List.insertionSort strDataLe (dedupFirst (lines.filterMap subCandidate))

/-- Bytes of an ASCII string (Go strings are byte slices; all string
literals involved in URL construction here are ASCII). -/
def strBytes (s : String) : List Nat :=
  s.toList.map fun c => c.toNat

/-- Bytes Go `url.QueryEscape` leaves unescaped: ASCII alphanumerics
and `-`, `_`, `.`, `~`. -/
def isUnreservedByte (b : Nat) : Bool :=
  (65 ≤ b ∧ b ≤ 90) ∨ (97 ≤ b ∧ b ≤ 122) ∨ (48 ≤ b ∧ b ≤ 57) ∨
    b = 45 ∨ b = 95 ∨ b = 46 ∨ b = 126

/-- Upper-case hexadecimal digit byte for a value below 16. -/
def hexDigitByte (n : Nat) : Nat :=
  if n < 10 then 48 + n else 55 + n

/-- `url.QueryEscape` on one byte: unreserved bytes pass through, a
space becomes `+`, every other byte becomes `%XX`. -/
def queryEscapeByte (b : Nat) : List Nat :=
  if isUnreservedByte b then [b]
  else if b = 32 then [43]
  else [37, hexDigitByte (b / 16), hexDigitByte (b % 16)]

/-- Model of Go `url.QueryEscape`, at the byte level. -/
def queryEscape (bs : List Nat) : List Nat :=
  (bs.map queryEscapeByte).flatten

/-- Value of one hexadecimal digit byte (upper- or lower-case). -/
def unhexByte (b : Nat) : Option Nat :=
  if 48 ≤ b ∧ b ≤ 57 then some (b - 48)
  else if 65 ≤ b ∧ b ≤ 70 then some (b - 55)
  else if 97 ≤ b ∧ b ≤ 102 then some (b - 87)
  else none

/-- Model of Go `url.QueryUnescape`, at the byte level: `%XX` decodes to
one byte, `+` to a space. -/
def queryUnescape : List Nat → Option (List Nat)
  | [] => some []
  | b :: rest =>
    if b = 37 then
      match rest with
      | h :: l :: rest2 =>
        match unhexByte h, unhexByte l, queryUnescape rest2 with
        | some hv, some lv, some r => some ((16 * hv + lv) :: r)
        | _, _, _ => none
      | _ => none
    else if b = 43 then
      match queryUnescape rest with
      | some r => some (32 :: r)
      | none => none
    else
      match queryUnescape rest with
      | some r => some (b :: r)
      | none => none

/-- The fixed prefix of the CDX query URL, up to the `url=` parameter. -/
def cdxBase : List Nat :=
  strBytes "https://web.archive.org/cdx/search/cdx?url="

/-- The fixed field-list suffix of the CDX query URL. -/
def flSuffix : List Nat :=
  strBytes "&fl=original,length,timestamp"

/-- The wildcard pattern `*.<d>/*` around a domain's bytes. -/
def wildcardPattern (d : List Nat) : List Nat :=
  strBytes "*." ++ d ++ strBytes "/*"

/-- The API URL constructed by `main.go` (and the part_000 version):
`QueryEscape("*." + inputURL + "/*")` spliced between the fixed prefix
and the field list. -/
def mainGoApiURL (d : List Nat) : List Nat :=
  cdxBase ++ queryEscape (wildcardPattern d) ++ flSuffix

/-- The scheme-prefixing step at the top of v2.0.1 `processURL`: a
domain that starts with neither `http://` nor `https://` gets
`http://` prepended before the wildcard pattern is built. -/
def ensureScheme (d : List Nat) : List Nat :=
  if (strBytes "http://").isPrefixOf d ∨ (strBytes "https://").isPrefixOf d then d
  else strBytes "http://" ++ d

/-- The API URL constructed by v2.0.1 `processURL`. -/
def processURLApiURL (d : List Nat) : List Nat :=
  cdxBase ++ queryEscape (wildcardPattern (ensureScheme d)) ++ flSuffix

/-- The stages a run can reach before line processing: help/version
shown (process exits cleanly), an input error (abort before any
network activity), or an HTTP GET issued for a constructed API URL. -/
inductive RunOutcome where
  | helpShown : RunOutcome
  | inputError : RunOutcome
  | fetch : List Nat → RunOutcome
deriving DecidableEq, Repr

/-- The mode flags of the part_000 entry point. -/
structure Part000Flags where
  waybackOnly : Bool
  browsable : Bool
  saveCSV : Bool
  subdomain : Bool
  help : Bool
deriving DecidableEq, Repr

/-- `modeCount` as computed in part_000's `main` (and, without the
subdomain flag, in `main.go`). -/
def modeCount (f : Part000Flags) : Nat :=
  (if f.waybackOnly then 1 else 0) + (if f.browsable then 1 else 0) +
    (if f.saveCSV then 1 else 0) + (if f.subdomain then 1 else 0)

/-- Control flow of part_000's `main` up to the HTTP GET: help for `-h`
or no argument, an input error for an empty URL argument or for more
than one selected mode, otherwise a fetch of the constructed API URL.
(The filename sanitising between these steps does not affect which
stage is reached.) -/
def part000Main (f : Part000Flags) (args : List String) : RunOutcome :=
  if f.help || args.isEmpty then .helpShown
  else if args.headD "" = "" then .inputError
  else if modeCount f > 1 then .inputError
  else .fetch (mainGoApiURL (strBytes (args.headD "")))

/-- `modeCount` over a v2.0.1 `Config` (the count that the v2.0.1
`main` never computes). -/
def v2ModeCount (cfg : Config) : Nat :=
  (if cfg.waybackOnly then 1 else 0) + (if cfg.browsable then 1 else 0) +
    (if cfg.saveCSV then 1 else 0) + (if cfg.subdomain then 1 else 0)

/-- Control flow of the v2.0.1 `main` up to the first HTTP GET, for the
single-URL (no `-input-file`) invocation: version/help short-circuit,
then `processURL` is called directly on the argument — there is no
mode-exclusivity validation of any kind. -/
def v2Main (cfg : Config) (version help : Bool) (args : List String) : RunOutcome :=
  if version then .helpShown
  else if help || (args.isEmpty && cfg.inputFile = "") then .helpShown
  else .fetch (processURLApiURL (strBytes (args.headD "")))

/-- Model of Go `time.Parse("2006-01-02", s)`: exactly ten characters
`YYYY-MM-DD`, with the same range checks as `goTimeParse14`. -/
def goDateParse (s : String) : Option GoTime :=
  match s.toList with
  | [y1, y2, y3, y4, '-', m1, m2, '-', d1, d2] =>
    if ([y1, y2, y3, y4, m1, m2, d1, d2].all Char.isDigit) then
      let y := ((dval y1 * 10 + dval y2) * 10 + dval y3) * 10 + dval y4
      let mo := dval m1 * 10 + dval m2
      let dy := dval d1 * 10 + dval d2
      if 1 ≤ mo ∧ mo ≤ 12 ∧ 1 ≤ dy ∧ dy ≤ daysIn y mo then
        some ⟨y, mo, dy, 0, 0, 0⟩
      else none
    else none
  | _ => none

/-- Model of v2.0.1 `processDateRange` (`now` stands for `time.Now()`):
an empty start date leaves the zero start (`none`), an empty end date
defaults to `now`, and an unparseable date is an error.  Note that no
caller in the repository ever invokes this function. -/
def processDateRange (startDate endDate : String) (now : GoTime) :
    Except String (Option GoTime × GoTime) :=
  if startDate ≠ "" ∧ goDateParse startDate = none then
    .error "invalid start date format"
  else if endDate ≠ "" ∧ goDateParse endDate = none then
    .error "invalid end date format"
  else
    .ok (if startDate = "" then none else goDateParse startDate,
         if endDate = "" then now else (goDateParse endDate).getD now)

/-- The spec's description of the uncapped text output: every record
that survives the blank/field-count gate, the regex filter and the
uniqueness filter is emitted, with no result cap.  Kept separate from
`processTextAux` (which carries the `MaxResults` counter) so the two
can be compared. -/
def specTextNoCap (compile : String → Option (String → Bool)) (cfg : Config) :
    List String → List String → List String
  | [], _ => []
  | line :: rest, seen =>
    if isBlank line then specTextNoCap compile cfg rest seen
    else
      match goFields line with
      | f0 :: _ :: f2 :: _ =>
        if matchesFilter compile f0 cfg.regexFilter = false then
          specTextNoCap compile cfg rest seen
        else if cfg.uniqueURLs ∧ f0 ∈ seen then
          specTextNoCap compile cfg rest seen
        else
          let seen2 := if cfg.uniqueURLs then f0 :: seen else seen
          (if cfg.browsable then browsableURL f2 f0 else f0) ::
            specTextNoCap compile cfg rest seen2
      | _ => specTextNoCap compile cfg rest seen

/-- The spec's description of the uncapped JSON record stream (see
`specTextNoCap`). -/
def specJSONNoCap (compile : String → Option (String → Bool)) (cfg : Config) :
    List String → List String → List WaybackResult
  | [], _ => []
  | line :: rest, seen =>
    if isBlank line then specJSONNoCap compile cfg rest seen
    else
      match goFields line with
      | f0 :: f1 :: f2 :: _ =>
        if matchesFilter compile f0 cfg.regexFilter = false then
          specJSONNoCap compile cfg rest seen
        else if cfg.uniqueURLs ∧ f0 ∈ seen then
          specJSONNoCap compile cfg rest seen
        else
          let seen2 := if cfg.uniqueURLs then f0 :: seen else seen
          ({ url := f0, length := f1, timestamp := f2, date := goTimeParse14 f2 } : WaybackResult) ::
            specJSONNoCap compile cfg rest seen2
      | _ => specJSONNoCap compile cfg rest seen

/-! ### Helper lemmas -/

/-- `processTextAux` only reads `browsable`, `uniqueURLs`, `maxResults`
and the behaviour of the regex filter from the configuration. -/
lemma processTextAux_congr (compile : String → Option (String → Bool))
    (cfg cfg' : Config) (hb : cfg.browsable = cfg'.browsable)
    (hu : cfg.uniqueURLs = cfg'.uniqueURLs) (hm : cfg.maxResults = cfg'.maxResults)
    (hf : ∀ u, matchesFilter compile u cfg.regexFilter =
      matchesFilter compile u cfg'.regexFilter) :
    ∀ lines seen count, processTextAux compile cfg lines seen count =
      processTextAux compile cfg' lines seen count := by
  intro lines
  induction lines with
  | nil => intro seen count; rfl
  | cons line rest ih =>
    intro seen count
    simp only [processTextAux]
    by_cases hbl : isBlank line = true
    · rw [if_pos hbl, if_pos hbl]; exact ih seen count
    · rw [if_neg hbl, if_neg hbl]
      rcases hg : goFields line with _ | ⟨f0, _ | ⟨f1, _ | ⟨f2, fs⟩⟩⟩
      · simp only [hg]; exact ih seen count
      · simp only [hg]; exact ih seen count
      · simp only [hg]; exact ih seen count
      · simp only [hg, hb, hu, hm, hf f0, ih]

/-- With a positive `MaxResults` and fewer than `MaxResults` records
already counted, the capped text loop produces exactly the prefix of
the uncapped (surviving) stream that fills the cap. -/
lemma processTextAux_cap_take (compile : String → Option (String → Bool))
    (cfg : Config) (hpos : 0 < cfg.maxResults) :
    ∀ (lines seen : List String) (c : Int), c < cfg.maxResults →
      processTextAux compile cfg lines seen c =
        (specTextNoCap compile cfg lines seen).take (cfg.maxResults - c).toNat := by
  intro lines
  induction lines with
  | nil => intro seen c _; simp [processTextAux, specTextNoCap]
  | cons line rest ih =>
    intro seen c hc
    simp only [processTextAux, specTextNoCap]
    by_cases hbl : isBlank line = true
    · rw [if_pos hbl, if_pos hbl]; exact ih seen c hc
    · rw [if_neg hbl, if_neg hbl]
      rcases hg : goFields line with _ | ⟨f0, _ | ⟨f1, _ | ⟨f2, fs⟩⟩⟩
      · simp only [hg]; exact ih seen c hc
      · simp only [hg]; exact ih seen c hc
      · simp only [hg]; exact ih seen c hc
      · simp only [hg]
        by_cases hfl : matchesFilter compile f0 cfg.regexFilter = false

        · rw [if_pos hfl, if_pos hfl]; exact ih seen c hc
        · rw [if_neg hfl, if_neg hfl]
          by_cases huq : cfg.uniqueURLs = true ∧ f0 ∈ seen
          · rw [if_pos huq, if_pos huq]; exact ih seen c hc
          · rw [if_neg huq, if_neg huq]
            have hk : (cfg.maxResults - c).toNat = (cfg.maxResults - (c + 1)).toNat + 1 := by
              omega
            rw [hk, List.take_succ_cons]
            by_cases hcap : 0 < cfg.maxResults ∧ cfg.maxResults ≤ c + 1
            · rw [if_pos hcap]
              have h0 : (cfg.maxResults - (c + 1)).toNat = 0 := by omega
              rw [h0, List.take_zero]
            · rw [if_neg hcap]
              have hlt : c + 1 < cfg.maxResults := by
                rcases not_and_or.mp hcap with h | h
                · exact absurd hpos h
                · omega
              rw [ih _ (c + 1) hlt]

/-- With a non-positive `MaxResults`, the cap branch is never taken:
the capped text loop equals the uncapped surviving stream. -/
lemma processTextAux_no_cap (compile : String → Option (String → Bool))
    (cfg : Config) (hneg : cfg.maxResults ≤ 0) :
    ∀ (lines seen : List String) (c : Int),
      processTextAux compile cfg lines seen c = specTextNoCap compile cfg lines seen := by
  intro lines
  induction lines with
  | nil => intro seen c; rfl
  | cons line rest ih =>
    intro seen c
    simp only [processTextAux, specTextNoCap]
    by_cases hbl : isBlank line = true
    · rw [if_pos hbl, if_pos hbl]; exact ih seen c
    · rw [if_neg hbl, if_neg hbl]
      rcases hg : goFields line with _ | ⟨f0, _ | ⟨f1, _ | ⟨f2, fs⟩⟩⟩
      · simp only [hg]; exact ih seen c
      · simp only [hg]; exact ih seen c
      · simp only [hg]; exact ih seen c
      · simp only [hg]
        by_cases hfl : matchesFilter compile f0 cfg.regexFilter = false
        · rw [if_pos hfl, if_pos hfl]; exact ih seen c
        · rw [if_neg hfl, if_neg hfl]
          by_cases huq : cfg.uniqueURLs = true ∧ f0 ∈ seen
          · rw [if_pos huq, if_pos huq]; exact ih seen c
          · rw [if_neg huq, if_neg huq]
            have hcap : ¬ (0 < cfg.maxResults ∧ cfg.maxResults ≤ c + 1) := by
              rintro ⟨h1, _⟩; omega
            rw [if_neg hcap, ih]

/-- JSON/record analogue of `processTextAux_cap_take`. -/
lemma processJSONAux_cap_take (compile : String → Option (String → Bool))
    (cfg : Config) (hpos : 0 < cfg.maxResults) :
    ∀ (lines seen : List String) (c : Int), c < cfg.maxResults →
      processJSONAux compile cfg lines seen c =
        (specJSONNoCap compile cfg lines seen).take (cfg.maxResults - c).toNat := by
  intro lines
  induction lines with
  | nil => intro seen c _; simp [processJSONAux, specJSONNoCap]
  | cons line rest ih =>
    intro seen c hc
    simp only [processJSONAux, specJSONNoCap]
    by_cases hbl : isBlank line = true
    · rw [if_pos hbl, if_pos hbl]; exact ih seen c hc
    · rw [if_neg hbl, if_neg hbl]
      rcases hg : goFields line with _ | ⟨f0, _ | ⟨f1, _ | ⟨f2, fs⟩⟩⟩
      · simp only [hg]; exact ih seen c hc
      · simp only [hg]; exact ih seen c hc
      · simp only [hg]; exact ih seen c hc
      · simp only [hg]
        by_cases hfl : matchesFilter compile f0 cfg.regexFilter = false
        · rw [if_pos hfl, if_pos hfl]; exact ih seen c hc
        · rw [if_neg hfl, if_neg hfl]
          by_cases huq : cfg.uniqueURLs = true ∧ f0 ∈ seen
          · rw [if_pos huq, if_pos huq]; exact ih seen c hc
          · rw [if_neg huq, if_neg huq]
            have hk : (cfg.maxResults - c).toNat = (cfg.maxResults - (c + 1)).toNat + 1 := by
              omega
            rw [hk, List.take_succ_cons]
            by_cases hcap : 0 < cfg.maxResults ∧ cfg.maxResults ≤ c + 1
            · rw [if_pos hcap]
              have h0 : (cfg.maxResults - (c + 1)).toNat = 0 := by omega
              rw [h0, List.take_zero]
            · rw [if_neg hcap]
              have hlt : c + 1 < cfg.maxResults := by
                rcases not_and_or.mp hcap with h | h
                · exact absurd hpos h
                · omega
              rw [ih _ (c + 1) hlt]

/-- JSON/record analogue of `processTextAux_no_cap`. -/
lemma processJSONAux_no_cap (compile : String → Option (String → Bool))
    (cfg : Config) (hneg : cfg.maxResults ≤ 0) :
    ∀ (lines seen : List String) (c : Int),
      processJSONAux compile cfg lines seen c = specJSONNoCap compile cfg lines seen := by
  intro lines
  induction lines with
  | nil => intro seen c; rfl
  | cons line rest ih =>
    intro seen c
    simp only [processJSONAux, specJSONNoCap]
    by_cases hbl : isBlank line = true
    · rw [if_pos hbl, if_pos hbl]; exact ih seen c
    · rw [if_neg hbl, if_neg hbl]
      rcases hg : goFields line with _ | ⟨f0, _ | ⟨f1, _ | ⟨f2, fs⟩⟩⟩
      · simp only [hg]; exact ih seen c
      · simp only [hg]; exact ih seen c
      · simp only [hg]; exact ih seen c
      · simp only [hg]
        by_cases hfl : matchesFilter compile f0 cfg.regexFilter = false
        · rw [if_pos hfl, if_pos hfl]; exact ih seen c
        · rw [if_neg hfl, if_neg hfl]
          by_cases huq : cfg.uniqueURLs = true ∧ f0 ∈ seen
          · rw [if_pos huq, if_pos huq]; exact ih seen c
          · rw [if_neg huq, if_neg huq]
            have hcap : ¬ (0 < cfg.maxResults ∧ cfg.maxResults ≤ c + 1) := by
              rintro ⟨h1, _⟩; omega
            rw [if_neg hcap, ih]

/-- Decoding a hex digit produced for a value below 16 recovers that
value. -/
lemma unhexByte_hexDigitByte (n : Nat) (h : n < 16) :
    unhexByte (hexDigitByte n) = some n := by
  by_cases h10 : n < 10
  · have c1 : 48 ≤ 48 + n ∧ 48 + n ≤ 57 := by omega
    simp [unhexByte, hexDigitByte, h10, c1.1, c1.2]
  · have c1 : ¬ (48 ≤ 55 + n ∧ 55 + n ≤ 57) := by omega
    have c2 : 65 ≤ 55 + n ∧ 55 + n ≤ 70 := by omega
    simp [unhexByte, hexDigitByte, h10, c1, c2.1, c2.2]

/-- `url.QueryUnescape` inverts `url.QueryEscape` on byte sequences. -/
lemma queryUnescape_queryEscape (bs : List Nat) (hb : ∀ b ∈ bs, b < 256) :
    queryUnescape (queryEscape bs) = some bs := by
  induction bs with
  | nil => rfl
  | cons b rest ih =>
    have hb0 : b < 256 := hb b (by simp)
    have ih' : queryUnescape (queryEscape rest) = some rest :=
      ih fun x hx => hb x (by simp [hx])
    have hsplit : queryEscape (b :: rest) = queryEscapeByte b ++ queryEscape rest := by
      simp [queryEscape]
    rw [hsplit]
    by_cases hu : isUnreservedByte b = true
    · have h37 : ¬ b = 37 := by
        simp [isUnreservedByte] at hu; omega
      have h43 : ¬ b = 43 := by
        simp [isUnreservedByte] at hu; omega
      rw [show queryEscapeByte b = [b] from by simp [queryEscapeByte, hu]]
      rw [List.singleton_append, queryUnescape.eq_def]
      simp [h37, h43, ih']
    · by_cases h32 : b = 32
      · subst h32
        rw [show queryEscapeByte 32 = [43] from rfl]
        rw [List.singleton_append, queryUnescape.eq_def]
        simp [ih']
      · have hdiv : b / 16 < 16 := by omega
        have hmod : b % 16 < 16 := by omega
        have hrecon : 16 * (b / 16) + b % 16 = b := by omega
        rw [show queryEscapeByte b = [37, hexDigitByte (b / 16), hexDigitByte (b % 16)]
          from by simp [queryEscapeByte, hu, h32]]
        simp only [List.cons_append, List.nil_append]
        rw [queryUnescape.eq_def]
        simp [unhexByte_hexDigitByte _ hdiv, unhexByte_hexDigitByte _ hmod, ih', hrecon]

/-- Membership in `dedupAux`: an element occurs iff it occurs in the
input and was not already seen. -/
lemma mem_dedupAux : ∀ (l seen : List String) (x : String),
    x ∈ dedupAux l seen ↔ x ∈ l ∧ x ∉ seen := by
  intro l
  induction l with
  | nil => intro seen x; simp [dedupAux]
  | cons y ys ih =>
    intro seen x
    by_cases hy : y ∈ seen
    · rw [dedupAux, if_pos hy, ih]
      constructor
      · rintro ⟨hx, hns⟩; exact ⟨List.mem_cons_of_mem _ hx, hns⟩
      · rintro ⟨hx, hns⟩
        rcases List.mem_cons.mp hx with rfl | hx
        · exact absurd hy hns
        · exact ⟨hx, hns⟩
    · rw [dedupAux, if_neg hy]
      constructor
      · intro hx
        rcases List.mem_cons.mp hx with rfl | hx
        · exact ⟨List.mem_cons_self _ _, hy⟩
        · rcases (ih _ _).mp hx with ⟨h1, h2⟩
          exact ⟨List.mem_cons_of_mem _ h1, fun hs => h2 (List.mem_cons_of_mem _ hs)⟩
      · rintro ⟨hx, hns⟩
        rcases List.mem_cons.mp hx with rfl | hx
        · exact List.mem_cons_self _ _
        · by_cases hxy : x = y
          · subst hxy; exact List.mem_cons_self _ _
          · exact List.mem_cons_of_mem _ ((ih _ _).mpr
              ⟨hx, fun hs => by
                rcases List.mem_cons.mp hs with h | h
                · exact hxy h
                · exact hns h⟩)

/-- `dedupAux` never repeats an element. -/
lemma nodup_dedupAux : ∀ (l seen : List String), (dedupAux l seen).Nodup := by
  intro l
  induction l with
  | nil => intro seen; simp [dedupAux]
  | cons y ys ih =>
    intro seen
    by_cases hy : y ∈ seen
    · rw [dedupAux, if_pos hy]; exact ih seen
    · rw [dedupAux, if_neg hy]
      refine List.nodup_cons.mpr ⟨?_, ih _⟩
      intro hmem
      exact ((mem_dedupAux _ _ _).mp hmem).2 (List.mem_cons_self _ _)

/-- Membership in `dedupFirst` is membership in the underlying list. -/
lemma mem_dedupFirst (l : List String) (x : String) :
    x ∈ dedupFirst l ↔ x ∈ l := by
  rw [dedupFirst, mem_dedupAux]; simp

/-- Characterisation of `subCandidate`. -/
lemma subCandidate_eq_some (line s : String) :
    subCandidate line = some s ↔
      isBlank line = false ∧ s ≠ "" ∧
        ∃ f0 r, goFields line = f0 :: r ∧ extractSubdomains f0 = s := by
  unfold subCandidate
  by_cases hbl : isBlank line = true
  · constructor
    · intro h; rw [if_pos hbl] at h; exact absurd h (by simp)
    · rintro ⟨hbf, _⟩; rw [hbl] at hbf; exact absurd hbf (by simp)
  · have hbl' : isBlank line = false := by simpa using hbl
    rw [if_neg hbl]
    rcases hg : goFields line with _ | ⟨f0, r⟩
    · constructor
      · intro h; exact absurd h (by simp)
      · rintro ⟨_, _, f0, r, heq, _⟩; exact absurd heq (by simp)
    · by_cases he : extractSubdomains f0 = ""
      · constructor
        · intro h; rw [show (match f0 :: r with
            | [] => none
            | f0 :: _ => let s := extractSubdomains f0;
              if s = "" then none else some s) = (none : Option String)
            from by simp [he]] at h
          exact absurd h (by simp)
        · rintro ⟨_, hne, f0', r', heq, hex⟩
          injection heq with h1 h2
          subst h1
          exact absurd (he.symm.trans hex).symm hne
      · constructor
        · intro h
          have hs : extractSubdomains f0 = s := by simpa [he] using h
          exact ⟨hbl', fun h0 => he (hs.trans h0), f0, r, rfl, hs⟩
        · rintro ⟨_, hne, f0', r', heq, hex⟩
          injection heq with h1 h2
          subst h1
          have hs : ¬ s = "" := fun h0 => he (hex.trans h0)
          simp [hex, hs]

/-- Parsing an escaped quoted-field body: consuming `escapeQuotes f`
followed by the closing quote lands back in unquoted state with `f`
accumulated, provided the input continues with a comma or ends (as
encoder output always does). -/
lemma parseCSVRec_escapeQuotes (f : List Char) :
    ∀ (k acc : List Char), (k = [] ∨ ∃ k2, k = ',' :: k2) →
      parseCSVRec (escapeQuotes f ++ '"' :: k) acc true =
        parseCSVRec k (f.reverse ++ acc) false := by
  induction f with
  | nil =>
    intro k acc hk
    rcases hk with rfl | ⟨k2, rfl⟩
    · simp [escapeQuotes, parseCSVRec]
    · simp [escapeQuotes, parseCSVRec]
  | cons c f' ih =>
    intro k acc hk
    by_cases hc : c = '"'
    · subst hc
      rw [show escapeQuotes ('"' :: f') = '"' :: '"' :: escapeQuotes f' from by
        simp [escapeQuotes]]
      rw [List.cons_append, List.cons_append, parseCSVRec, ih k _ hk]
      simp
    · rw [show escapeQuotes (c :: f') = c :: escapeQuotes f' from by
        simp [escapeQuotes, hc]]
      rw [List.cons_append]
      rw [show parseCSVRec (c :: (escapeQuotes f' ++ '"' :: k)) acc true =
        parseCSVRec (escapeQuotes f' ++ '"' :: k) (c :: acc) true from by
        rw [parseCSVRec.eq_def]; simp [hc]]
      rw [ih k _ hk]
      simp

/-- Parsing an unquoted field body (no comma, no quote) accumulates it
verbatim. -/
lemma parseCSVRec_raw (f : List Char) :
    ∀ (k acc : List Char), f.contains ',' = false → f.contains '"' = false →
      parseCSVRec (f ++ k) acc false = parseCSVRec k (f.reverse ++ acc) false := by
  induction f with
  | nil => intro k acc _ _; simp
  | cons c f' ih =>
    intro k acc hcm hqu
    have hc : ¬ c = ',' := by
      intro h; subst h; simp [List.contains_cons] at hcm
    have hq : ¬ c = '"' := by
      intro h; subst h; simp [List.contains_cons] at hqu
    have hcm' : f'.contains ',' = false := by
      simp only [List.contains_cons, Bool.or_eq_false_iff] at hcm; exact hcm.2
    have hqu' : f'.contains '"' = false := by
      simp only [List.contains_cons, Bool.or_eq_false_iff] at hqu; exact hqu.2
    rw [List.cons_append]
    rw [show parseCSVRec (c :: (f' ++ k)) acc false =
      parseCSVRec (f' ++ k) (c :: acc) false from by
      rw [parseCSVRec.eq_def]; simp [hc, hq]]
    rw [ih k _ hcm' hqu']
    simp

/-- A field that `encoding/csv` leaves unquoted contains no comma and no
quote. -/
lemma no_comma_quote_of_not_needsQuote (f : List Char) (h : csvNeedsQuote f = false) :
    f.contains ',' = false ∧ f.contains '"' = false := by
  unfold csvNeedsQuote at h
  by_cases h0 : f = []
  · subst h0; simp
  · rw [if_neg h0] at h
    by_cases h1 : f = ['\\', '.']
    · rw [if_pos h1] at h; exact absurd h (by simp)
    · rw [if_neg h1] at h
      simp only [Bool.or_eq_false_iff] at h
      exact ⟨h.1.1.1.1, h.1.1.1.2⟩

/-- Parsing one encoded field from unquoted state consumes it exactly,
provided the input continues with a comma or ends. -/
lemma parseCSVRec_encodeField (f : List Char) (k acc : List Char)
    (hk : k = [] ∨ ∃ k2, k = ',' :: k2) :
    parseCSVRec (encodeField f ++ k) acc false =
      parseCSVRec k (f.reverse ++ acc) false := by
  by_cases hq : csvNeedsQuote f = true
  · rw [show encodeField f = '"' :: (escapeQuotes f ++ ['"']) from by
      simp [encodeField, hq]]
    rw [List.cons_append, List.append_assoc, List.singleton_append]
    rw [show parseCSVRec ('"' :: (escapeQuotes f ++ '"' :: k)) acc false =
      parseCSVRec (escapeQuotes f ++ '"' :: k) acc true from by
      rw [parseCSVRec.eq_def]; simp]
    exact parseCSVRec_escapeQuotes f k acc hk
  · have hq' : csvNeedsQuote f = false := by simpa using hq
    rcases no_comma_quote_of_not_needsQuote f hq' with ⟨h1, h2⟩
    rw [show encodeField f = f from by simp [encodeField, hq']]
    exact parseCSVRec_raw f k acc h1 h2

/-- Splitting on commas leaves a comma-free chunk whole. -/
lemma splitComma_no_comma (xs : List Char) (h : xs.contains ',' = false) :
    splitComma xs = [xs] := by
  induction xs with
  | nil => rfl
  | cons c cs ih =>
    have hc : ¬ c = ',' := by
      intro hcc; subst hcc; simp [List.contains_cons] at h
    have hcs : cs.contains ',' = false := by
      simp only [List.contains_cons, Bool.or_eq_false_iff] at h; exact h.2
    rw [splitComma.eq_def]
    simp [hc, ih hcs]

/-- Splitting on commas peels off a leading comma-free chunk at the
first comma. -/
lemma splitComma_append (xs rest : List Char) (h : xs.contains ',' = false) :
    splitComma (xs ++ ',' :: rest) = xs :: splitComma rest := by
  induction xs with
  | nil => simp [splitComma]
  | cons c cs ih =>
    have hc : ¬ c = ',' := by
      intro hcc; subst hcc; simp [List.contains_cons] at h
    have hcs : cs.contains ',' = false := by
      simp only [List.contains_cons, Bool.or_eq_false_iff] at h; exact h.2
    rw [List.cons_append, splitComma.eq_def]
    simp [hc, ih hcs]

/-- Re-splitting `main.go`'s comma-joined line recovers the three
fields exactly when none of them contains a comma. -/
lemma splitComma_mainGoCSVLine (u l t : String)
    (hu : u.toList.contains ',' = false) (hl : l.toList.contains ',' = false)
    (ht : t.toList.contains ',' = false) :
    splitComma (mainGoCSVLine u l t).toList = [u.toList, l.toList, t.toList] := by
  have hshape : (mainGoCSVLine u l t).toList =
      u.toList ++ ',' :: (l.toList ++ ',' :: t.toList) := by
    show (u ++ "," ++ l ++ "," ++ t).data =
      u.data ++ ',' :: (l.data ++ ',' :: t.data)
    simp [String.data_append]
  rw [hshape, splitComma_append _ _ hu, splitComma_append _ _ hl,
    splitComma_no_comma _ ht]

/-- Parsing an encoded CSV record recovers exactly its fields. -/
lemma parseCSVRec_encodeRow : ∀ (fs : List (List Char)) (f acc : List Char),
    parseCSVRec (encodeRow (f :: fs)) acc false = (acc.reverse ++ f) :: fs := by
  intro fs
  induction fs with
  | nil =>
    intro f acc
    rw [show encodeRow [f] = encodeField f from rfl]
    rw [show encodeField f = encodeField f ++ [] from by simp]
    rw [parseCSVRec_encodeField f [] acc (Or.inl rfl)]
    simp [parseCSVRec]
  | cons g fs' ih =>
    intro f acc
    rw [show encodeRow (f :: g :: fs') = encodeField f ++ ',' :: encodeRow (g :: fs')
      from rfl]
    rw [parseCSVRec_encodeField f _ acc (Or.inr ⟨_, rfl⟩)]
    rw [show parseCSVRec (',' :: encodeRow (g :: fs')) (f.reverse ++ acc) false =
      (f.reverse ++ acc).reverse :: parseCSVRec (encodeRow (g :: fs')) [] false from by
      rw [parseCSVRec.eq_def]; simp]
    rw [ih g []]
    simp

/-! ### Claim theorems -/

/-- Claim C5: for every record stream and every regex filter string that
fails to compile (modelled by `compile` returning `none`) or is empty,
the filter behaves as if disabled: `matchesFilter` returns `true` for
every URL, and the text pipeline produces the same output as with an
empty (disabled) filter, so every record passes through and no error
is raised. -/
theorem c5_invalid_regex_fail_open
    (compile : String → Option (String → Bool)) (pat : String)
    (h : pat = "" ∨ compile pat = none) :
    (∀ url, matchesFilter compile url pat = true) ∧
    (∀ (cfg : Config) (lines : List String),
      processTextFormat compile { cfg with regexFilter := pat } lines =
        processTextFormat compile { cfg with regexFilter := "" } lines) := by
  have hm : ∀ url, matchesFilter compile url pat = true := by
    intro url
    rcases h with h | h
    · simp [matchesFilter, h]
    · simp only [matchesFilter, h]
      split <;> rfl
  refine ⟨hm, fun cfg lines => ?_⟩
  exact processTextAux_congr compile { cfg with regexFilter := pat }
    { cfg with regexFilter := "" } rfl rfl rfl
    (fun u => by rw [hm u]; simp [matchesFilter]) lines [] 0

/-- Witness for C5 at a concrete invalid pattern: with an engine that
rejects the pattern `[`, every URL passes the filter and the pipeline
output matches the unfiltered run. -/
theorem c5_invalid_regex_fail_open_witness :
    matchesFilter (fun _ => none) "http://a.example.com/x" "[" = true ∧
    processTextFormat (fun _ => none) { defaultConfig with regexFilter := "[" }
        ["http://a.example.com/x 100 20230101120000"] =
      processTextFormat (fun _ => none) { defaultConfig with regexFilter := "" }
        ["http://a.example.com/x 100 20230101120000"] :=
  ⟨(c5_invalid_regex_fail_open (fun _ => none) "[" (Or.inr rfl)).1 _,
   (c5_invalid_regex_fail_open (fun _ => none) "[" (Or.inr rfl)).2 defaultConfig _⟩

/-- Counterexample to claim C2 as stated: in the v2.0.1 subdomain mode
(`processURL`), a non-blank line with a single whitespace-separated
field — fewer than 3 — does contribute an output entry, because that
branch only requires `len(fields) >= 1`. -/
theorem c2_short_line_counterexample :
    isBlank "http://x.example.com/p" = false ∧
    (goFields "http://x.example.com/p").length < 3 ∧
    processURLSubdomains ["http://x.example.com/p"] = ["x.example.com"] := by
  decide

/-- Claim C2 (amended): a non-blank upstream line with fewer than 3
whitespace-separated fields produces no record and no error in the
text, JSON, XML and CSV renderers — it is silently skipped.  (The
v2.0.1 subdomain branch is the exception: it only requires one field,
see `c2_short_line_counterexample`.) -/
theorem c2_short_line_skipped
    (compile : String → Option (String → Bool)) (cfg : Config) (line : String)
    (rest seen : List String) (count : Int)
    (hnb : isBlank line = false) (hlt : (goFields line).length < 3) :
    processTextAux compile cfg (line :: rest) seen count =
      processTextAux compile cfg rest seen count ∧
    processJSONAux compile cfg (line :: rest) seen count =
      processJSONAux compile cfg rest seen count ∧
    processXMLAux compile cfg (line :: rest) seen count =
      processXMLAux compile cfg rest seen count ∧
    processCSVAux compile cfg (line :: rest) seen count =
      processCSVAux compile cfg rest seen count := by
  have hnb' : ¬ isBlank line = true := by simp [hnb]
  rcases hg : goFields line with _ | ⟨f0, _ | ⟨f1, _ | ⟨f2, fs⟩⟩⟩
  · exact ⟨by simp only [processTextAux, if_neg hnb', hg],
      by simp only [processJSONAux, if_neg hnb', hg],
      by simp only [processXMLAux, if_neg hnb', hg],
      by simp only [processCSVAux, if_neg hnb', hg]⟩
  · exact ⟨by simp only [processTextAux, if_neg hnb', hg],
      by simp only [processJSONAux, if_neg hnb', hg],
      by simp only [processXMLAux, if_neg hnb', hg],
      by simp only [processCSVAux, if_neg hnb', hg]⟩
  · exact ⟨by simp only [processTextAux, if_neg hnb', hg],
      by simp only [processJSONAux, if_neg hnb', hg],
      by simp only [processXMLAux, if_neg hnb', hg],
      by simp only [processCSVAux, if_neg hnb', hg]⟩
  · rw [hg] at hlt; exact absurd hlt (by simp)

/-- Witness for the amended C2 at the concrete two-field line `"a b"`:
all four renderers skip it. -/
theorem c2_short_line_skipped_witness :
    processTextAux (fun _ => none) defaultConfig ["a b"] [] 0 =
      processTextAux (fun _ => none) defaultConfig [] [] 0 ∧
    processJSONAux (fun _ => none) defaultConfig ["a b"] [] 0 =
      processJSONAux (fun _ => none) defaultConfig [] [] 0 ∧
    processXMLAux (fun _ => none) defaultConfig ["a b"] [] 0 =
      processXMLAux (fun _ => none) defaultConfig [] [] 0 ∧
    processCSVAux (fun _ => none) defaultConfig ["a b"] [] 0 =
      processCSVAux (fun _ => none) defaultConfig [] [] 0 :=
  c2_short_line_skipped (fun _ => none) defaultConfig "a b" [] [] 0
    (by decide) (by decide)

/-- Claim C9: a well-formed line (3 or more fields) that passes the
regex and uniqueness gates is still turned into a record and included
in the JSON and XML outputs even when its third field is not a
parseable `YYYYMMDDhhmmss` timestamp; no error is raised and only the
derived `date` field is left at the zero value (`none`). -/
theorem c9_unparseable_timestamp_kept
    (compile : String → Option (String → Bool)) (cfg : Config) (line : String)
    (rest seen : List String) (count : Int) (f0 f1 f2 : String) (fs : List String)
    (hnb : isBlank line = false)
    (hg : goFields line = f0 :: f1 :: f2 :: fs)
    (hfl : matchesFilter compile f0 cfg.regexFilter = true)
    (huniq : ¬ (cfg.uniqueURLs ∧ f0 ∈ seen))
    (hts : goTimeParse14 f2 = none) :
    (∃ tl, processJSONAux compile cfg (line :: rest) seen count =
      ({ url := f0, length := f1, timestamp := f2, date := none } : WaybackResult) :: tl) ∧
    (∃ tl, processXMLAux compile cfg (line :: rest) seen count =
      ({ url := f0, length := f1, timestamp := f2, date := none } : WaybackResult) :: tl) := by
  have hnb' : ¬ isBlank line = true := by simp [hnb]
  have hfl' : ¬ matchesFilter compile f0 cfg.regexFilter = false := by simp [hfl]
  constructor
  · simp only [processJSONAux, if_neg hnb', hg, if_neg hfl', if_neg huniq, hts]
    exact ⟨_, rfl⟩
  · simp only [processXMLAux, if_neg hnb', hg, if_neg hfl', if_neg huniq, hts]
    exact ⟨_, rfl⟩

/-- Witness for C9 at the concrete line
`"http://a.example.com/x 100 notadate"`: both record renderers keep
the record, with `date` at the zero value. -/
theorem c9_unparseable_timestamp_kept_witness :
    (∃ tl, processJSONAux (fun _ => none) defaultConfig
      ["http://a.example.com/x 100 notadate"] [] 0 =
      ({ url := "http://a.example.com/x", length := "100", timestamp := "notadate",
         date := none } : WaybackResult) :: tl) ∧
    (∃ tl, processXMLAux (fun _ => none) defaultConfig
      ["http://a.example.com/x 100 notadate"] [] 0 =
      ({ url := "http://a.example.com/x", length := "100", timestamp := "notadate",
         date := none } : WaybackResult) :: tl) :=
  c9_unparseable_timestamp_kept (fun _ => none) defaultConfig
    "http://a.example.com/x 100 notadate" [] [] 0
    "http://a.example.com/x" "100" "notadate" []
    (by decide) (by decide) (by decide) (by decide) (by decide)

/-- Claim C6: with a positive `max-results` value, the text and JSON
pipelines emit exactly the first `min(n, m)` surviving records in
arrival order (`specTextNoCap`/`specJSONNoCap` are the uncapped
surviving streams, of length `m`): the output is the length-`n`
prefix of the surviving stream — a hard stop, not a sample. -/
theorem c6_max_results_hard_cap (compile : String → Option (String → Bool))
    (cfg : Config) (lines : List String) (hpos : 0 < cfg.maxResults) :
    (processTextFormat compile cfg lines =
      (specTextNoCap compile cfg lines []).take cfg.maxResults.toNat ∧
     (processTextFormat compile cfg lines).length =
      min cfg.maxResults.toNat (specTextNoCap compile cfg lines []).length) ∧
    ((processJSONFormat compile cfg lines).results =
      (specJSONNoCap compile cfg lines []).take cfg.maxResults.toNat ∧
     (processJSONFormat compile cfg lines).results.length =
      min cfg.maxResults.toNat (specJSONNoCap compile cfg lines []).length) := by
  have ht : processTextFormat compile cfg lines =
      (specTextNoCap compile cfg lines []).take cfg.maxResults.toNat := by
    have := processTextAux_cap_take compile cfg hpos lines [] 0 hpos
    simpa [processTextFormat] using this
  have hj : (processJSONFormat compile cfg lines).results =
      (specJSONNoCap compile cfg lines []).take cfg.maxResults.toNat := by
    have := processJSONAux_cap_take compile cfg hpos lines [] 0 hpos
    simpa [processJSONFormat] using this
  exact ⟨⟨ht, by rw [ht, List.length_take]⟩, ⟨hj, by rw [hj, List.length_take]⟩⟩

/-- Witness for C6: `max-results = 2` with 5 surviving records emits
exactly the first 2, in arrival order. -/
theorem c6_max_results_hard_cap_witness :
    processTextFormat (fun _ => none) { defaultConfig with maxResults := 2 }
        ["http://a.com 1 2", "http://b.com 3 4", "http://c.com 5 6",
         "http://d.com 7 8", "http://e.com 9 10"] =
      (specTextNoCap (fun _ => none) { defaultConfig with maxResults := 2 }
        ["http://a.com 1 2", "http://b.com 3 4", "http://c.com 5 6",
         "http://d.com 7 8", "http://e.com 9 10"] []).take (2 : Int).toNat ∧
    processTextFormat (fun _ => none) { defaultConfig with maxResults := 2 }
        ["http://a.com 1 2", "http://b.com 3 4", "http://c.com 5 6",
         "http://d.com 7 8", "http://e.com 9 10"] =
      ["http://a.com", "http://b.com"] :=
  ⟨((c6_max_results_hard_cap (fun _ => none) { defaultConfig with maxResults := 2 }
      ["http://a.com 1 2", "http://b.com 3 4", "http://c.com 5 6",
       "http://d.com 7 8", "http://e.com 9 10"] (by decide)).1).1,
   by decide⟩

/-- Claim C10: with the default `max-results` of 0, or any non-positive
value, no cap is applied: the text and JSON pipelines emit every
record that survives the blank/field-count gate, the regex filter and
the uniqueness filter. -/
theorem c10_nonpositive_max_results_uncapped
    (compile : String → Option (String → Bool)) (cfg : Config) (lines : List String)
    (hneg : cfg.maxResults ≤ 0) :
    processTextFormat compile cfg lines = specTextNoCap compile cfg lines [] ∧
    (processJSONFormat compile cfg lines).results = specJSONNoCap compile cfg lines [] := by
  exact ⟨processTextAux_no_cap compile cfg hneg lines [] 0,
    processJSONAux_no_cap compile cfg hneg lines [] 0⟩

/-- Witness for C10 at `max-results = -1` (and, by the same theorem at
the default configuration, 0): all 4 surviving records of a 5-line
input are emitted. -/
theorem c10_nonpositive_max_results_uncapped_witness :
    (processTextFormat (fun _ => none) { defaultConfig with maxResults := -1 }
        ["http://a.com 1 2", "http://b.com 3 4", "", "bad",
         "http://c.com 5 6"] =
      specTextNoCap (fun _ => none) { defaultConfig with maxResults := -1 }
        ["http://a.com 1 2", "http://b.com 3 4", "", "bad",
         "http://c.com 5 6"] []) ∧
    processTextFormat (fun _ => none) { defaultConfig with maxResults := -1 }
        ["http://a.com 1 2", "http://b.com 3 4", "", "bad",
         "http://c.com 5 6"] =
      ["http://a.com", "http://b.com", "http://c.com"] :=
  ⟨(c10_nonpositive_max_results_uncapped (fun _ => none)
      { defaultConfig with maxResults := -1 }
      ["http://a.com 1 2", "http://b.com 3 4", "", "bad", "http://c.com 5 6"]
      (by decide)).1,
   by decide⟩

/-- Claim C3 (code bug): the `start-date`/`end-date` configuration
fields have no effect whatsoever on the pipeline output —
`processDateRange` is never invoked and no renderer compares record
dates — so a record dated 2010-01-01, well outside the supplied range
[2023-01-01, 2023-12-31], is still emitted.  (The README advertises
date-range filtering, so this contradicts the tool's own
documentation.) -/
theorem c3_date_flags_have_no_effect :
    (∀ (compile : String → Option (String → Bool)) (cfg : Config)
      (s e : String) (lines : List String),
      processTextFormat compile { cfg with startDate := s, endDate := e } lines =
        processTextFormat compile cfg lines) ∧
    goTimeParse14 "20100101000000" =
      some { year := 2010, month := 1, day := 1, hour := 0, minute := 0, second := 0 } ∧
    processTextFormat (fun _ => none)
      { defaultConfig with startDate := "2023-01-01", endDate := "2023-12-31" }
      ["http://a.example.com/x 100 20100101000000"] = ["http://a.example.com/x"] := by
  refine ⟨?_, by decide, by decide⟩
  intro compile cfg s e lines
  exact processTextAux_congr compile { cfg with startDate := s, endDate := e } cfg
    rfl rfl rfl (fun u => rfl) lines [] 0

/-- Counterexample to claim C4 as stated: the v2.0.1 entry point
performs no mode-exclusivity validation, so an invocation that
selects both `-browsable` and `-subdomain` is not rejected — it
proceeds straight to the HTTP GET of the constructed API URL. -/
theorem c4_v2_multi_mode_not_rejected :
    1 < v2ModeCount { defaultConfig with browsable := true, subdomain := true } ∧
    v2Main { defaultConfig with browsable := true, subdomain := true } false false
        ["example.com"] =
      RunOutcome.fetch (processURLApiURL (strBytes "example.com")) ∧
    RunOutcome.fetch (processURLApiURL (strBytes "example.com")) ≠
      RunOutcome.inputError := by
  exact ⟨by decide, rfl, by decide⟩

/-- Claim C4 (amended): the part_000 entry point (like `main.go`, which
lacks only the subdomain flag) rejects an invocation selecting more
than one mode with an input error, before any network request; the
v2.0.1 entry point performs no such check
(`c4_v2_multi_mode_not_rejected`). -/
theorem c4_v1_multi_mode_rejected (f : Part000Flags) (args : List String)
    (hh : f.help = false) (hne : args.isEmpty = false) (hm : 1 < modeCount f) :
    part000Main f args = RunOutcome.inputError := by
  simp [part000Main, hh, hne, hm]

/-- Counterexample to claim C8 as stated: in the `main.go` CSV path the
three fields are first joined with `fmt.Sprintf("%s,%s,%s", ...)` and
the line is re-split on every comma before being handed to the CSV
writer, so a record whose URL contains a comma is written as extra
columns: parsing the row back yields the URL truncated at its comma,
not the original value. -/
theorem c8_main_go_comma_counterexample :
    parseCSVLine (mainGoCSVRow "http://a.com/x,y" "100" "20230101120000") =
      ["http://a.com/x".toList, "y".toList, "100".toList,
        "20230101120000".toList] ∧
    (parseCSVLine (mainGoCSVRow "http://a.com/x,y" "100" "20230101120000")).take 3 ≠
      ["http://a.com/x,y".toList, "100".toList, "20230101120000".toList] := by
  exact ⟨by decide, by decide⟩

/-- Claim C8 (amended): rendering a record set to CSV and parsing the
rows back per standard CSV quoting rules yields the same `url`,
`length` and `timestamp` field values (derived `date` column
excluded) — for the v2.0.1 `processCSVFormat` rows for every record,
including records whose URL contains a comma or a quote; for the
`main.go`/part_000 CSV path only for records none of whose fields
contains a comma, because that path comma-joins the fields and then
re-splits the line on every comma
(`c8_main_go_comma_counterexample`). -/
theorem c8_csv_round_trip :
    (∀ r : WaybackResult, parseCSVLine (renderCSVRow r) =
      [r.url.toList, r.length.toList, r.timestamp.toList, (rfc3339 r.date).toList]) ∧
    (∀ rs : List WaybackResult,
      ((renderCSV rs).tail).map (fun line => (parseCSVLine line).take 3) =
        rs.map (fun r => [r.url.toList, r.length.toList, r.timestamp.toList])) ∧
    (∀ u l t : String, u.toList.contains ',' = false →
      l.toList.contains ',' = false → t.toList.contains ',' = false →
      parseCSVLine (mainGoCSVRow u l t) = [u.toList, l.toList, t.toList]) := by
  have hrow : ∀ r : WaybackResult, parseCSVLine (renderCSVRow r) =
      [r.url.toList, r.length.toList, r.timestamp.toList, (rfc3339 r.date).toList] := by
    intro r
    unfold renderCSVRow parseCSVLine
    rw [parseCSVRec_encodeRow]
    simp
  refine ⟨hrow, fun rs => ?_, fun u l t hu hl ht => ?_⟩
  · unfold renderCSV
    rw [List.tail_cons, List.map_map]
    induction rs with
    | nil => rfl
    | cons r rs' ih =>
      simp only [List.map_cons, Function.comp_apply, hrow r, ih]
      simp
  · unfold mainGoCSVRow parseCSVLine
    rw [splitComma_mainGoCSVLine u l t hu hl ht, parseCSVRec_encodeRow]
    simp

/-- Witness for the amended C8: a comma-free record round-trips through
the `main.go` CSV path, and a comma-carrying record round-trips
through the v2.0.1 `processCSVFormat` row encoding. -/
theorem c8_csv_round_trip_witness :
    parseCSVLine (mainGoCSVRow "http://a.com/x" "100" "20230101120000") =
      ["http://a.com/x".toList, "100".toList, "20230101120000".toList] ∧
    parseCSVLine (renderCSVRow
        (⟨"http://a.com/x,y", "100", "20230101120000", none⟩ : WaybackResult)) =
      ["http://a.com/x,y".toList, "100".toList, "20230101120000".toList,
        (rfc3339 none).toList] :=
  ⟨c8_csv_round_trip.2.2 "http://a.com/x" "100" "20230101120000"
    (by decide) (by decide) (by decide),
   c8_csv_round_trip.1
    (⟨"http://a.com/x,y", "100", "20230101120000", none⟩ : WaybackResult)⟩

/-- Counterexample to claim C7 as stated: `extractSubdomains` trims a
leading `http://` and then ALSO a leading `https://` from what
remains, so for the nested-scheme URL `http://https://example.com/x`
the output entry is `example.com`, which is not obtained from any
input URL by the claimed single strip of one leading scheme
(that yields `https`). -/
theorem c7_nested_scheme_counterexample :
    processURLSubdomains ["http://https://example.com/x"] = ["example.com"] ∧
    specExtractHost "http://https://example.com/x" = "https" ∧
    ¬ (∀ s, s ∈ processURLSubdomains ["http://https://example.com/x"] →
        ∃ u, u ∈ ["http://https://example.com/x"] ∧ specExtractHost u = s) := by
  refine ⟨by decide, by decide, ?_⟩
  intro h
  rcases h "example.com" (by decide) with ⟨u, hu, he⟩
  rw [List.mem_singleton] at hu
  subst hu
  exact absurd he (by decide)

/-- Claim C7 (amended): in subdomain mode, each output entry is
obtained from some input line's first field by trimming a leading
literal `http://` and then a leading literal `https://` from the
remainder (both case-sensitive), truncating at the first `/` and then
the first `:`, and lower-casing (`extractSubdomains`); empty results
are excluded; the output lists each distinct host exactly once, in
lexicographically sorted order, independent of discovery order. -/
theorem c7_subdomain_output_characterisation (lines : List String) :
    List.Sorted strDataLt (processURLSubdomains lines) ∧
    (∀ s : String, s ∈ processURLSubdomains lines ↔
      s ≠ "" ∧ ∃ line, line ∈ lines ∧ isBlank line = false ∧
        ∃ f0 r, goFields line = f0 :: r ∧ extractSubdomains f0 = s) ∧
    (∀ lines' : List String, lines.Perm lines' →
      processURLSubdomains lines = processURLSubdomains lines') := by
  have hnodup : ∀ ls : List String, (dedupFirst (ls.filterMap subCandidate)).Nodup :=
    fun ls => nodup_dedupAux _ _
  have hperm : ∀ ls : List String,
      (processURLSubdomains ls).Perm (dedupFirst (ls.filterMap subCandidate)) :=
    fun ls => List.perm_insertionSort _ _
  have hsortedLe : ∀ ls : List String,
      List.Sorted strDataLe (processURLSubdomains ls) :=
    fun ls => List.sorted_insertionSort _ _
  have hnodupSort : ∀ ls : List String, (processURLSubdomains ls).Nodup :=
    fun ls => ((hperm ls).nodup_iff).mpr (hnodup ls)
  have hmem : ∀ (ls : List String) (s : String),
      s ∈ processURLSubdomains ls ↔ ∃ line, line ∈ ls ∧ subCandidate line = some s := by
    intro ls s
    rw [(hperm ls).mem_iff, mem_dedupFirst, List.mem_filterMap]
  have hsortedLt : List.Sorted strDataLt (processURLSubdomains lines) :=
    List.Pairwise.imp₂
      (fun a b (hle : strDataLe a b) (hne : a ≠ b) =>
        lt_of_le_of_ne hle fun hd => hne (String.ext hd))
      (hsortedLe lines) (hnodupSort lines)
  refine ⟨hsortedLt, ?_, ?_⟩
  · intro s
    rw [hmem lines s]
    constructor
    · rintro ⟨line, hl, hc⟩
      rcases (subCandidate_eq_some line s).mp hc with ⟨hbl, hne, f0, r, hg, hex⟩
      exact ⟨hne, line, hl, hbl, f0, r, hg, hex⟩
    · rintro ⟨hne, line, hl, hbl, f0, r, hg, hex⟩
      exact ⟨line, hl, (subCandidate_eq_some line s).mpr ⟨hbl, hne, f0, r, hg, hex⟩⟩
  · intro lines' hp
    have hmemiff : ∀ x, x ∈ dedupFirst (lines.filterMap subCandidate) ↔
        x ∈ dedupFirst (lines'.filterMap subCandidate) := by
      intro x
      rw [mem_dedupFirst, mem_dedupFirst, (hp.filterMap subCandidate).mem_iff]
    have hpd : (dedupFirst (lines.filterMap subCandidate)).Perm
        (dedupFirst (lines'.filterMap subCandidate)) :=
      (List.perm_ext_iff_of_nodup (hnodup lines) (hnodup lines')).mpr hmemiff
    exact List.eq_of_perm_of_sorted
      (((hperm lines).trans hpd).trans (hperm lines').symm)
      (hsortedLe lines) (hsortedLe lines')

/-- Witness for the amended C7 at a concrete three-line input and a
permutation of it: sortedness, the expected sorted deduplicated
output, and invariance under the permuted discovery order. -/
theorem c7_subdomain_output_characterisation_witness :
    List.Sorted strDataLt
      (processURLSubdomains ["http://b.example.com/x 1 2",
        "https://a.example.com/y 3 4", "http://a.example.com 5"]) ∧
    processURLSubdomains ["http://b.example.com/x 1 2",
        "https://a.example.com/y 3 4", "http://a.example.com 5"] =
      ["a.example.com", "b.example.com"] ∧
    processURLSubdomains ["http://b.example.com/x 1 2",
        "https://a.example.com/y 3 4", "http://a.example.com 5"] =
      processURLSubdomains ["https://a.example.com/y 3 4",
        "http://a.example.com 5", "http://b.example.com/x 1 2"] :=
  ⟨(c7_subdomain_output_characterisation ["http://b.example.com/x 1 2",
      "https://a.example.com/y 3 4", "http://a.example.com 5"]).1,
   by decide,
   (c7_subdomain_output_characterisation ["http://b.example.com/x 1 2",
      "https://a.example.com/y 3 4", "http://a.example.com 5"]).2.2
     ["https://a.example.com/y 3 4", "http://a.example.com 5",
      "http://b.example.com/x 1 2"] (by decide)⟩

/-- Counterexample to claim C1 as stated: for the user-supplied domain
`example.com`, the v2.0.1 `processURL` does not place the escaped
pattern `*.example.com/*` in the query — it first prepends `http://`,
so the escaped pattern is `*.http://example.com/*`. -/
theorem c1_processURL_pattern_counterexample :
    processURLApiURL (strBytes "example.com") ≠
      cdxBase ++ queryEscape (wildcardPattern (strBytes "example.com")) ++ flSuffix ∧
    processURLApiURL (strBytes "example.com") =
      cdxBase ++ queryEscape (wildcardPattern (strBytes "http://example.com")) ++
        flSuffix := by
  exact ⟨by decide, by decide⟩

/-- Claim C1 (amended): every constructed query URL is the fixed CDX
prefix, then the percent-encoded wildcard pattern as the `url=`
parameter, then `&fl=original,length,timestamp`; the encoded
parameter decodes back to exactly the wildcard pattern.  For
`main.go` (and part_000) the pattern wraps the domain exactly:
`*.<d>/*`.  For v2.0.1 `processURL` the domain is first given an
`http://` prefix when it carries no scheme, so the pattern is
`*.http://<d>/*` for scheme-less `d` and `*.<d>/*` only when `d`
already starts with `http://` or `https://`. -/
theorem c1_query_url_construction (d : List Nat) (hb : ∀ b ∈ d, b < 256) :
    mainGoApiURL d = cdxBase ++ queryEscape (wildcardPattern d) ++ flSuffix ∧
    queryUnescape (queryEscape (wildcardPattern d)) = some (wildcardPattern d) ∧
    processURLApiURL d =
      cdxBase ++ queryEscape (wildcardPattern (ensureScheme d)) ++ flSuffix ∧
    queryUnescape (queryEscape (wildcardPattern (ensureScheme d))) =
      some (wildcardPattern (ensureScheme d)) ∧
    (((strBytes "http://").isPrefixOf d ∨ (strBytes "https://").isPrefixOf d) →
      ensureScheme d = d) := by
  have hstar : ∀ b ∈ strBytes "*.", b < 256 := by decide
  have hslash : ∀ b ∈ strBytes "/*", b < 256 := by decide
  have hhttp : ∀ b ∈ strBytes "http://", b < 256 := by decide
  have hwild : ∀ d' : List Nat, (∀ b ∈ d', b < 256) →
      ∀ b ∈ wildcardPattern d', b < 256 := by
    intro d' hd' b hbm
    rcases List.mem_append.mp hbm with hbm | hbm
    · rcases List.mem_append.mp hbm with hbm | hbm
      · exact hstar b hbm
      · exact hd' b hbm
    · exact hslash b hbm
  have hens : ∀ b ∈ ensureScheme d, b < 256 := by
    intro b hbm
    unfold ensureScheme at hbm
    split at hbm
    · exact hb b hbm
    · rcases List.mem_append.mp hbm with hbm | hbm
      · exact hhttp b hbm
      · exact hb b hbm
  refine ⟨rfl, queryUnescape_queryEscape _ (hwild d hb), rfl,
    queryUnescape_queryEscape _ (hwild _ hens), ?_⟩
  intro hpre
  unfold ensureScheme
  rw [if_pos hpre]

/-- Witness for the amended C1 at the concrete domain `example.com`
(scheme-less, so `processURL` wraps `http://example.com`). -/
theorem c1_query_url_construction_witness :
    mainGoApiURL (strBytes "example.com") =
      cdxBase ++ queryEscape (wildcardPattern (strBytes "example.com")) ++ flSuffix ∧
    queryUnescape (queryEscape (wildcardPattern (strBytes "example.com"))) =
      some (wildcardPattern (strBytes "example.com")) :=
  ⟨(c1_query_url_construction (strBytes "example.com") (by decide)).1,
   (c1_query_url_construction (strBytes "example.com") (by decide)).2.1⟩

/-- Witness for the amended C4: `-wayback-only -browsable example.com`
aborts with an input error in the part_000 entry point. -/
theorem c4_v1_multi_mode_rejected_witness :
    part000Main
      { waybackOnly := true, browsable := true, saveCSV := false,
        subdomain := false, help := false } ["example.com"] =
      RunOutcome.inputError :=
  c4_v1_multi_mode_rejected
    { waybackOnly := true, browsable := true, saveCSV := false,
      subdomain := false, help := false } ["example.com"]
    (by decide) (by decide) (by decide)

end GoWayback
